import Mathlib

/-!
Verification of the autotile/atlas core of the `autotile` repository.

The first half embeds the autotile variant resolver from
`src/render/tilemap.rs` (`dir_to_bit`, `get_autotile_index`); the second
half embeds the atlas builder and tile manager from `src/atlas_frame.rs`
(`TileManagerBuilder`, `TileManager`).  Machine integers (`u8`, `u64`,
`i8`, `usize`) are modelled as `Nat`/`Int`; operations that panic in the
source (`unwrap`, division by zero) return `Option` and panic is `none`.
-/

namespace Autotile

/-- The eight compass directions, as in `src/point`. -/
inductive Direction
  | NE | N | NW | E | W | SE | S | SW
deriving DecidableEq

/-- `dir_to_bit` from `src/render/tilemap.rs`: the bit position of each
direction inside the 8-bit adjacency mask. -/
def dir_to_bit : Direction → Nat
  | .NE => 0
  | .N => 1
  | .NW => 2
  | .E => 3
  | .W => 4
  | .SE => 5
  | .S => 6
  | .SW => 7

/-- The closure `is_connected` inside `get_autotile_index`:
`(edges & (1 << dir_to_bit(dir))) > 0`. -/
def is_connected (edges : Nat) (dir : Direction) : Bool :=
  decide (0 < edges &&& (1 <<< dir_to_bit dir))

/-- A `[i8; 4]` tile-variant table, as passed to `lookup_idx`. -/
structure Tiles4 where
  t0 : Int
  t1 : Int
  t2 : Int
  t3 : Int
deriving DecidableEq

/-- The closure `lookup_idx` inside `get_autotile_index`
(`src/render/tilemap.rs`, lines 100-114). -/
def lookup_idx (edges : Nat) (horiz vert corner : Direction)
    (tiles : Tiles4) (corner_piece : Int) : Int :=
  if !is_connected edges horiz && !is_connected edges vert then
    tiles.t0
  else if !is_connected edges horiz && is_connected edges vert then
    tiles.t1
  else if is_connected edges horiz && !is_connected edges vert then
    tiles.t2
  else
    if !is_connected edges corner then
      corner_piece
    else
      tiles.t3

/-- `get_autotile_index` from `src/render/tilemap.rs` (lines 77-131).
`edges` is the `u8` adjacency mask, `quadrant` the `i8` quadrant id
(`QUAD_NW = 0`, `QUAD_NE = 1`, `QUAD_SW = 2`, `QUAD_SE = 3`). -/
def get_autotile_index (edges : Nat) (quadrant : Int) : Int :=
  if !is_connected edges .N && !is_connected edges .W
      && !is_connected edges .E && !is_connected edges .S then
    if quadrant = 0 then 0
    else if quadrant = 1 then 1
    else if quadrant = 2 then 4
    else if quadrant = 3 then 5
    else -1
  else
    if quadrant = 0 then lookup_idx edges .N .W .NW ⟨8, 9, 12, 13⟩ 2
    else if quadrant = 1 then lookup_idx edges .N .E .NE ⟨11, 10, 15, 14⟩ 3
    else if quadrant = 2 then lookup_idx edges .S .W .SW ⟨20, 21, 16, 17⟩ 6
    else if quadrant = 3 then lookup_idx edges .S .E .SE ⟨23, 22, 19, 18⟩ 7
    else -1

set_option maxRecDepth 10000 in
/-- C1: for every 8-bit adjacency mask with at least one of the N/S/E/W
bits set, the NW quadrant of `get_autotile_index` follows the decision
table on North, West and the NW diagonal: tiles[0]=8 when neither North
nor West is connected, tiles[1]=9 when only West, tiles[2]=12 when only
North, the concave corner piece 2 when both are connected but the NW
diagonal is not, and tiles[3]=13 when all three are connected. -/
theorem nw_decision_table (e : Fin 256)
    (h : is_connected e.val .N = true ∨ is_connected e.val .S = true
       ∨ is_connected e.val .E = true ∨ is_connected e.val .W = true) :
    (is_connected e.val .N = false → is_connected e.val .W = false →
        get_autotile_index e.val 0 = 8)
  ∧ (is_connected e.val .N = false → is_connected e.val .W = true →
        get_autotile_index e.val 0 = 9)
  ∧ (is_connected e.val .N = true → is_connected e.val .W = false →
        get_autotile_index e.val 0 = 12)
  ∧ (is_connected e.val .N = true → is_connected e.val .W = true →
        is_connected e.val .NW = false → get_autotile_index e.val 0 = 2)
  ∧ (is_connected e.val .N = true → is_connected e.val .W = true →
        is_connected e.val .NW = true → get_autotile_index e.val 0 = 13) := by
  revert e h
  decide

/-- Witness for C1: the mask 18 has exactly the North and West bits set and
no NW diagonal, and the NW quadrant resolves to the concave corner piece 2. -/
theorem nw_decision_table_app :
    is_connected 18 .N = true ∧ get_autotile_index 18 0 = 2 :=
  ⟨by decide,
    (nw_decision_table ⟨18, by decide⟩ (Or.inl (by decide))).2.2.2.1
      (by decide) (by decide) (by decide)⟩

set_option maxRecDepth 10000 in
/-- C2: for every 8-bit adjacency mask whose N, S, E and W bits are all
unset, `get_autotile_index` returns the isolated variant determined solely
by the quadrant — 0 for NW, 1 for NE, 4 for SW, 5 for SE — regardless of
the diagonal bits. -/
theorem isolated_variants (e : Fin 256)
    (h : is_connected e.val .N = false ∧ is_connected e.val .S = false
       ∧ is_connected e.val .E = false ∧ is_connected e.val .W = false) :
    get_autotile_index e.val 0 = 0 ∧ get_autotile_index e.val 1 = 1
  ∧ get_autotile_index e.val 2 = 4 ∧ get_autotile_index e.val 3 = 5 := by
  revert e h
  decide

/-- Witness for C2: the mask 165 has all four diagonal bits set and no
N/S/E/W bit, and each quadrant yields its isolated variant. -/
theorem isolated_variants_app :
    is_connected 165 .NE = true ∧ get_autotile_index 165 0 = 0
  ∧ get_autotile_index 165 3 = 5 :=
  ⟨by decide,
    (isolated_variants ⟨165, by decide⟩ ⟨by decide, by decide, by decide, by decide⟩).1,
    (isolated_variants ⟨165, by decide⟩ ⟨by decide, by decide, by decide, by decide⟩).2.2.2⟩

set_option maxRecDepth 10000 in
/-- C5: `get_autotile_index` is total over all 256 adjacency masks and all
four quadrants, always returning a variant in the authored range 0..23
(never the -1 sentinel), and whenever the mask has no N/S/E/W bit the
isolated special case takes priority, yielding 0/1/4/5 by quadrant. -/
theorem autotile_totality :
    ∀ e : Fin 256, ∀ q : Fin 4,
      (0 ≤ get_autotile_index e.val q.val ∧ get_autotile_index e.val q.val ≤ 23)
    ∧ (is_connected e.val .N = false → is_connected e.val .S = false →
        is_connected e.val .E = false → is_connected e.val .W = false →
        get_autotile_index e.val q.val =
          if q.val = 0 then 0 else if q.val = 1 then 1
          else if q.val = 2 then 4 else 5) := by
  decide

/-- Witness for C5: a sample mask/quadrant pair is in range, and the
isolated case fires on the diagonal-only mask 165. -/
theorem autotile_totality_app :
    (0 ≤ get_autotile_index 37 2 ∧ get_autotile_index 37 2 ≤ 23)
  ∧ get_autotile_index 165 2 = 4 := by
  refine ⟨(autotile_totality ⟨37, by decide⟩ ⟨2, by decide⟩).1, ?_⟩
  have h := (autotile_totality ⟨165, by decide⟩ ⟨2, by decide⟩).2
    (by decide) (by decide) (by decide) (by decide)
  simpa using h

/-- C10: for every adjacency mask, a quadrant id outside {0, 1, 2, 3} makes
`get_autotile_index` return the sentinel -1 rather than a variant. -/
theorem out_of_range_quadrant (edges : Nat) (q : Int)
    (h0 : q ≠ 0) (h1 : q ≠ 1) (h2 : q ≠ 2) (h3 : q ≠ 3) :
    get_autotile_index edges q = -1 := by
  unfold get_autotile_index
  simp [h0, h1, h2, h3]

/-- Witness for C10: quadrant 4 on the full mask yields -1. -/
theorem out_of_range_quadrant_app :
    (4 : Int) ≠ 0 ∧ get_autotile_index 255 4 = -1 :=
  ⟨by decide,
    out_of_range_quadrant 255 4 (by decide) (by decide) (by decide) (by decide)⟩

/-!
## Atlas builder and tile manager (`src/atlas_frame.rs`)

`HashMap` is modelled as an association list whose `insert` conses at the
head (lookup finds the most recent binding, matching `HashMap::insert`
replacement) and whose `get_mut`-based update rewrites the first binding in
place.  The `texture_packer` crate is external to the repository, so its
packers are abstracted behind `PackerOps`: a state type `PS`, an image type
`IMG`, and the five operations `add_image`/`build` call on them.
-/

/-- First-key lookup in an association list (`HashMap::get`). -/
def alookup {α β : Type} [DecidableEq α] (k : α) : List (α × β) → Option β
  | [] => none
  | (k2, v) :: rest => if k2 = k then some v else alookup k rest

/-- In-place update of the first binding of `k` (`HashMap::get_mut`). -/
def alupdate {α β : Type} [DecidableEq α] (k : α) (f : β → β) :
    List (α × β) → List (α × β)
  | [] => []
  | (k2, v) :: rest =>
    if k2 = k then (k2, f v) :: rest else (k2, v) :: alupdate k f rest

/-- `texture_packer::Rect`. -/
structure Rect where
  x : Nat
  y : Nat
  w : Nat
  h : Nat
deriving DecidableEq

/-- `TileKind` from `src/atlas_frame.rs`: `Static` or
`Animated(frame_count, millis_delay)` (both `u64`). -/
inductive TileKind
  | Static : TileKind
  | Animated : Nat → Nat → TileKind
deriving DecidableEq

/-- `AtlasTile` from `src/atlas_frame.rs`. -/
structure AtlasTile where
  offset : Nat × Nat
  is_autotile : Bool
  tile_kind : TileKind
deriving DecidableEq

/-- `AtlasFrame` from `src/atlas_frame.rs`; `offsets` maps `TileIndex`
(`usize`, here `Nat`) to the tile descriptor. -/
structure AtlasFrame where
  tile_size : Nat × Nat
  texture_idx : Nat
  rect : Rect
  offsets : List (Nat × AtlasTile)
deriving DecidableEq

/-- `AtlasFrame::new`. -/
def AtlasFrame.new (texture_idx : Nat) (rect : Rect) : AtlasFrame :=
  { tile_size := (48, 48), texture_idx := texture_idx, rect := rect,
    offsets := [] }

/-- Abstract interface of the external `texture_packer` crate plus image
decoding, as used by `TileManagerBuilder`: `empty` is a freshly configured
skyline packer (`add_packer`), `canPack`/`packOwn`/`frameRect` are
`TexturePacker::can_pack`/`pack_own`/`get_frame(..).frame`, `importImage`
is `ImageImporter::import_from_file`, and `exportDims` gives the pixel
dimensions of the page texture produced by `ImageExporter::export`. -/
structure PackerOps (PS IMG : Type) where
  empty : PS
  canPack : PS → IMG → Bool
  packOwn : PS → String → IMG → PS
  frameRect : PS → String → Rect
  importImage : String → IMG
  exportDims : PS → Nat × Nat

/-- `TileManagerBuilder` from `src/atlas_frame.rs`. -/
structure TileManagerBuilder (PS : Type) where
  locations : List (Nat × String)
  frames : List (String × AtlasFrame)
  packers : List PS

/-- `TileManager` from `src/atlas_frame.rs`; each built page texture is
kept as its pixel dimensions, which is all the lookups consult. -/
structure TileManager where
  locations : List (Nat × String)
  frames : List (String × AtlasFrame)
  textures : List (Nat × Nat)

/-- `TileManagerBuilder::new`: empty maps plus one packer added by
`add_packer`. -/
def TileManagerBuilder.new {PS IMG : Type} (ops : PackerOps PS IMG) :
    TileManagerBuilder PS :=
  { locations := [], frames := [], packers := [ops.empty] }

/-- The packing loop of `add_image` (lines 97-104): walk the packers in
creation order; pack into the first one whose `can_pack` succeeds,
returning the updated packer list, the packer's index and the frame rect;
`none` when every packer refuses. -/
def packFirstFit {PS IMG : Type} (ops : PackerOps PS IMG) (key : String)
    (texture : IMG) : List PS → Option (List PS × Nat × Rect)
  | [] => none
  | p :: rest =>
    if ops.canPack p texture then
      let p2 := ops.packOwn p key texture
      some (p2 :: rest, 0, ops.frameRect p2 key)
    else
      match packFirstFit ops key texture rest with
      | some (rest2, i, r) => some (p :: rest2, i + 1, r)
      | none => none

/-- `TileManagerBuilder::add_image`: try every existing packer in order;
if none fits, `add_packer` a fresh one and pack into it (the source
unwraps that pack, so the model packs unconditionally).  The new
`AtlasFrame` records the index of the receiving packer. -/
def TileManagerBuilder.add_image {PS IMG : Type} (ops : PackerOps PS IMG)
    (b : TileManagerBuilder PS) (path_string : String) :
    TileManagerBuilder PS :=
  let texture := ops.importImage path_string
  match packFirstFit ops path_string texture b.packers with
  | some (packers2, idx, rect) =>
    { b with packers := packers2,
             frames := (path_string, AtlasFrame.new idx rect) :: b.frames }
  | none =>
    let packer_idx := b.packers.length
    let packer := ops.packOwn ops.empty path_string texture
    { b with packers := b.packers ++ [packer],
             frames := (path_string,
               AtlasFrame.new packer_idx (ops.frameRect packer path_string))
               :: b.frames }

/-- `TileManagerBuilder::add_tile`: pack the image on first reference to
its key, then record the tile descriptor in the frame's `offsets` and the
key in `locations`. -/
def TileManagerBuilder.add_tile {PS IMG : Type} (ops : PackerOps PS IMG)
    (b : TileManagerBuilder PS) (path_str : String) (index : Nat)
    (tile_data : AtlasTile) : TileManagerBuilder PS :=
  let b1 := if (alookup path_str b.frames).isSome then b
            else b.add_image ops path_str
  { b1 with
    frames := alupdate path_str
      (fun f => { f with offsets := (index, tile_data) :: f.offsets })
      b1.frames,
    locations := (index, path_str) :: b1.locations }

/-- `TileManagerBuilder::build`: one exported texture per packer, plus
clones of the lookup maps. -/
def TileManagerBuilder.build {PS IMG : Type} (ops : PackerOps PS IMG)
    (b : TileManagerBuilder PS) : TileManager :=
  { locations := b.locations, frames := b.frames,
    textures := b.packers.map ops.exportDims }

/-- `TileManager::get_frame`; the source double-`unwrap`s, so a missing
`TileIndex` or frame is `none` (a panic). -/
def TileManager.get_frame (tm : TileManager) (tile_type : Nat) :
    Option AtlasFrame :=
  match alookup tile_type tm.locations with
  | none => none
  | some tex_name => alookup tex_name tm.frames

/-- `TileManager::get`. -/
def TileManager.get (tm : TileManager) (tile_type : Nat) : Option AtlasTile :=
  match tm.get_frame tile_type with
  | none => none
  | some frame => alookup tile_type frame.offsets

/-- `TileManager::get_tile_texture_idx`. -/
def TileManager.get_tile_texture_idx (tm : TileManager) (tile_type : Nat) :
    Option Nat :=
  (tm.get_frame tile_type).map (fun f => f.texture_idx)

/-- `TileManager::get_tex_ratio`: `1.0 / (dimensions / 24)` per axis, with
exact rationals in place of `f32`; the `unwrap` on a bad texture index is
`none`. -/
def TileManager.get_tex_ratio (tm : TileManager) (texture_idx : Nat) :
    Option (ℚ × ℚ) :=
  match tm.textures[texture_idx]? with
  | none => none
  | some dims =>
    let cols : Nat := dims.1 / 24
    let rows : Nat := dims.2 / 24
    some (1 / (cols : ℚ), 1 / (rows : ℚ))

/-- `get_add_offset` from `src/atlas_frame.rs`. -/
def get_add_offset (rect : Rect) : Nat × Nat :=
  (rect.x / 48, rect.y / 48)

/-- `TileManager::get_texture_offset`.  `u64` division and remainder by
zero panic in Rust, so an `Animated` tile with zero delay or zero frame
count is `none`. -/
def TileManager.get_texture_offset (tm : TileManager) (tile_type : Nat)
    (msecs : Nat) : Option (ℚ × ℚ) :=
  match tm.get_frame tile_type with
  | none => none
  | some frame =>
  match alookup tile_type frame.offsets with
  | none => none
  | some tile =>
  match tm.get_tex_ratio frame.texture_idx with
  | none => none
  | some tex_ratio =>
    let add_offset := get_add_offset frame.rect
    match tile.tile_kind with
    | TileKind.Static =>
      some ((((tile.offset.1 + add_offset.1) * 2 : Nat) : ℚ) * tex_ratio.1,
            (((tile.offset.2 + add_offset.2) * 2 : Nat) : ℚ) * tex_ratio.2)
    | TileKind.Animated frame_count delay =>
      if delay = 0 ∨ frame_count = 0 then none
      else
        let current_frame := msecs / delay
        let x_index_offset :=
          if tile.is_autotile then (4 * current_frame) % frame_count
          else current_frame % frame_count
        some ((((tile.offset.1 + (add_offset.1 + x_index_offset)) * 2 : Nat) : ℚ)
                * tex_ratio.1,
              (((tile.offset.2 + add_offset.2) * 2 : Nat) : ℚ) * tex_ratio.2)

/-- `TileManager::passes`. -/
def TileManager.passes (tm : TileManager) : Nat :=
  tm.textures.length

/-- Run a whole builder phase: `TileManagerBuilder::new` followed by one
`add_tile` per `(path, index, tile)` triple. -/
def runBuilder {PS IMG : Type} (ops : PackerOps PS IMG)
    (tiles : List (String × Nat × AtlasTile)) : TileManagerBuilder PS :=
  tiles.foldl (fun b t => b.add_tile ops t.1 t.2.1 t.2.2)
    (TileManagerBuilder.new ops)

/-- A trivial packer instance for concrete witnesses: every image fits the
current page, frames land at the origin, pages export at 96×96 pixels. -/
def unitOps : PackerOps Unit Unit :=
  { empty := (), canPack := fun _ _ => true, packOwn := fun _ _ _ => (),
    frameRect := fun _ _ => ⟨0, 0, 48, 48⟩, importImage := fun _ => (),
    exportDims := fun _ => (96, 96) }


/-- First-fit characterization, following the spec: the index of the first
page that can fit the image, in creation order. -/
def firstFitIndex {PS IMG : Type} (ops : PackerOps PS IMG) (texture : IMG) :
    List PS → Option Nat
  | [] => none
  | p :: rest =>
    if ops.canPack p texture then some 0
    else (firstFitIndex ops texture rest).map (fun i => i + 1)

theorem alookup_alupdate_self {α β : Type} [DecidableEq α] (k : α)
    (f : β → β) (l : List (α × β)) :
    alookup k (alupdate k f l) = (alookup k l).map f := by
  induction l with
  | nil => simp [alookup, alupdate]
  | cons hd tl ih =>
    obtain ⟨k2, v⟩ := hd
    by_cases h : k2 = k
    · simp [alookup, alupdate, h]
    · simp [alookup, alupdate, h, ih]

theorem alookup_alupdate_ne {α β : Type} [DecidableEq α] {k k2 : α}
    (f : β → β) (l : List (α × β)) (h : k2 ≠ k) :
    alookup k (alupdate k2 f l) = alookup k l := by
  induction l with
  | nil => simp [alupdate]
  | cons hd tl ih =>
    obtain ⟨k3, v⟩ := hd
    by_cases h3 : k3 = k2
    · subst h3
      simp [alookup, alupdate, h]
    · have hk2 : ¬(k = k2) := fun hh => h hh.symm
      by_cases h4 : k3 = k
      · simp [alookup, alupdate, h3, h4, hk2]
      · simp [alookup, alupdate, h3, h4, ih]

theorem ffi_none_forall {PS IMG : Type} (ops : PackerOps PS IMG) (tex : IMG)
    (l : List PS) :
    firstFitIndex ops tex l = none → ∀ p ∈ l, ops.canPack p tex = false := by
  induction l with
  | nil => intro _ p hp; simp at hp
  | cons q rest ih =>
    intro h p hp
    simp only [firstFitIndex] at h
    by_cases hq : ops.canPack q tex
    · rw [if_pos hq] at h
      simp at h
    · rw [if_neg hq] at h
      rcases List.mem_cons.mp hp with h1 | h1
      · subst h1
        simpa using hq
      · have hrest : firstFitIndex ops tex rest = none := by
          cases hr : firstFitIndex ops tex rest
          · rfl
          · rw [hr] at h
            simp at h
        exact ih hrest p h1

theorem packFirstFit_of_ffi_none {PS IMG : Type} (ops : PackerOps PS IMG)
    (key : String) (tex : IMG) (l : List PS) :
    firstFitIndex ops tex l = none → packFirstFit ops key tex l = none := by
  induction l with
  | nil => intro _; rfl
  | cons q rest ih =>
    intro h
    simp only [firstFitIndex] at h
    by_cases hq : ops.canPack q tex
    · rw [if_pos hq] at h
      simp at h
    · rw [if_neg hq] at h
      have hrest : firstFitIndex ops tex rest = none := by
        cases hr : firstFitIndex ops tex rest
        · rfl
        · rw [hr] at h
          simp at h
      simp only [packFirstFit]
      rw [if_neg hq, ih hrest]

theorem packFirstFit_of_ffi_some {PS IMG : Type} (ops : PackerOps PS IMG)
    (key : String) (tex : IMG) (l : List PS) :
    ∀ i, firstFitIndex ops tex l = some i →
      ∃ p, l[i]? = some p ∧ ops.canPack p tex = true
        ∧ packFirstFit ops key tex l
            = some (l.set i (ops.packOwn p key tex), i,
                    ops.frameRect (ops.packOwn p key tex) key)
        ∧ ∀ j pj, j < i → l[j]? = some pj → ops.canPack pj tex = false := by
  induction l with
  | nil => intro i h; simp [firstFitIndex] at h
  | cons q rest ih =>
    intro i h
    simp only [firstFitIndex] at h
    by_cases hq : ops.canPack q tex
    · rw [if_pos hq] at h
      have h0 : i = 0 := by simpa using h.symm
      subst h0
      refine ⟨q, by simp, hq, ?_, ?_⟩
      · simp [packFirstFit, hq]
      · intro j pj hj
        omega
    · rw [if_neg hq] at h
      cases hr : firstFitIndex ops tex rest with
      | none =>
        rw [hr] at h
        simp at h
      | some i0 =>
        rw [hr] at h
        simp at h
        subst h
        obtain ⟨p, hp, hcan, hpack, hmin⟩ := ih i0 hr
        refine ⟨p, by simpa using hp, hcan, ?_, ?_⟩
        · simp only [packFirstFit]
          rw [if_neg hq, hpack]
          simp [List.set]
        · intro j pj hj hpj
          cases j with
          | zero =>
            simp at hpj
            subst hpj
            simpa using hq
          | succ j0 =>
            exact hmin j0 pj (by omega) (by simpa using hpj)

/-- Builder well-formedness: at least one packer, every frame points at an
existing packer, and every registered location leads to a frame that holds
a descriptor for that index. -/
def WF {PS : Type} (b : TileManagerBuilder PS) : Prop :=
  1 ≤ b.packers.length
  ∧ (∀ key f, alookup key b.frames = some f → f.texture_idx < b.packers.length)
  ∧ (∀ t key, alookup t b.locations = some key →
      ∃ f, alookup key b.frames = some f
        ∧ ∃ tile, alookup t f.offsets = some tile)

theorem WF_new {PS IMG : Type} (ops : PackerOps PS IMG) :
    WF (TileManagerBuilder.new ops) := by
  refine ⟨by simp [TileManagerBuilder.new], ?_, ?_⟩
  · intro key f hf
    simp [TileManagerBuilder.new, alookup] at hf
  · intro t key hk
    simp [TileManagerBuilder.new, alookup] at hk

theorem add_image_locations {PS IMG : Type} (ops : PackerOps PS IMG)
    (b : TileManagerBuilder PS) (path : String) :
    (b.add_image ops path).locations = b.locations := by
  cases h : packFirstFit ops path (ops.importImage path) b.packers with
  | none => simp [TileManagerBuilder.add_image, h]
  | some x =>
    obtain ⟨l2, i, r⟩ := x
    simp [TileManagerBuilder.add_image, h]

theorem add_image_spec {PS IMG : Type} (ops : PackerOps PS IMG)
    (b : TileManagerBuilder PS) (path : String) :
    ∃ idx rect,
      (b.add_image ops path).frames
          = (path, AtlasFrame.new idx rect) :: b.frames
      ∧ idx < (b.add_image ops path).packers.length
      ∧ b.packers.length ≤ (b.add_image ops path).packers.length := by
  cases hffi : firstFitIndex ops (ops.importImage path) b.packers with
  | none =>
    have hp := packFirstFit_of_ffi_none ops path (ops.importImage path)
      b.packers hffi
    refine ⟨b.packers.length,
      ops.frameRect (ops.packOwn ops.empty path (ops.importImage path)) path,
      ?_, ?_, ?_⟩ <;> simp [TileManagerBuilder.add_image, hp]
  | some i =>
    obtain ⟨p, hp, hcan, hpack, hmin⟩ :=
      packFirstFit_of_ffi_some ops path (ops.importImage path) b.packers i hffi
    have hi : i < b.packers.length := by
      by_contra hc
      push_neg at hc
      rw [List.getElem?_eq_none hc] at hp
      simp at hp
    refine ⟨i, ops.frameRect (ops.packOwn p path (ops.importImage path)) path,
      ?_, ?_, ?_⟩ <;> simp [TileManagerBuilder.add_image, hpack]
    · exact hi

theorem add_tile_locations {PS IMG : Type} (ops : PackerOps PS IMG)
    (b : TileManagerBuilder PS) (path : String) (index : Nat)
    (tile : AtlasTile) :
    (b.add_tile ops path index tile).locations = (index, path) :: b.locations := by
  unfold TileManagerBuilder.add_tile
  by_cases hin : (alookup path b.frames).isSome
  · rw [if_pos hin]
  · rw [if_neg hin]
    simp [add_image_locations]

theorem add_tile_frames {PS IMG : Type} (ops : PackerOps PS IMG)
    (b : TileManagerBuilder PS) (path : String) (index : Nat)
    (tile : AtlasTile) :
    (b.add_tile ops path index tile).frames
      = alupdate path
          (fun f : AtlasFrame => { f with offsets := (index, tile) :: f.offsets })
          (if (alookup path b.frames).isSome then b.frames
           else (b.add_image ops path).frames) := by
  unfold TileManagerBuilder.add_tile
  by_cases hin : (alookup path b.frames).isSome
  · rw [if_pos hin, if_pos hin]
  · rw [if_neg hin, if_neg hin]

theorem add_tile_packers {PS IMG : Type} (ops : PackerOps PS IMG)
    (b : TileManagerBuilder PS) (path : String) (index : Nat)
    (tile : AtlasTile) :
    (b.add_tile ops path index tile).packers
      = (if (alookup path b.frames).isSome then b.packers
         else (b.add_image ops path).packers) := by
  unfold TileManagerBuilder.add_tile
  by_cases hin : (alookup path b.frames).isSome
  · rw [if_pos hin, if_pos hin]
  · rw [if_neg hin, if_neg hin]

theorem WF_add_tile {PS IMG : Type} (ops : PackerOps PS IMG)
    (b : TileManagerBuilder PS) (path : String) (index : Nat)
    (tile : AtlasTile) (hwf : WF b) :
    WF (b.add_tile ops path index tile) := by
  obtain ⟨h1, h2, h3⟩ := hwf
  have hfr := add_tile_frames ops b path index tile
  have hpk := add_tile_packers ops b path index tile
  have hloc := add_tile_locations ops b path index tile
  by_cases hin : (alookup path b.frames).isSome
  · rw [if_pos hin] at hfr hpk
    obtain ⟨f0, hf0⟩ := Option.isSome_iff_exists.mp hin
    refine ⟨?_, ?_, ?_⟩
    · rw [hpk]
      exact h1
    · intro key f hkf
      rw [hfr] at hkf
      rw [hpk]
      by_cases hkey : path = key
      · subst hkey
        rw [alookup_alupdate_self, hf0] at hkf
        simp at hkf
        subst hkf
        exact h2 path f0 hf0
      · rw [alookup_alupdate_ne _ _ hkey] at hkf
        exact h2 key f hkf
    · intro t key hk
      rw [hloc] at hk
      rw [hfr]
      simp only [alookup] at hk
      by_cases hti : index = t
      · rw [if_pos hti] at hk
        simp at hk
        subst hk
        refine ⟨{ f0 with offsets := (index, tile) :: f0.offsets }, ?_, ?_⟩
        · rw [alookup_alupdate_self, hf0]
          rfl
        · subst hti
          exact ⟨tile, by simp [alookup]⟩
      · rw [if_neg hti] at hk
        obtain ⟨f, hf, tl, htl⟩ := h3 t key hk
        by_cases hkey : path = key
        · subst hkey
          rw [hf0] at hf
          simp at hf
          subst hf
          refine ⟨{ f0 with offsets := (index, tile) :: f0.offsets }, ?_, tl, ?_⟩
          · rw [alookup_alupdate_self, hf0]
            rfl
          · simp [alookup, hti]
            exact htl
        · rw [alookup_alupdate_ne _ _ hkey]
          exact ⟨f, hf, tl, htl⟩
  · rw [if_neg hin] at hfr hpk
    have hnone : alookup path b.frames = none :=
      Option.not_isSome_iff_eq_none.mp hin
    obtain ⟨idx, rect, hifr, hlt, hle⟩ := add_image_spec ops b path
    rw [hifr] at hfr
    have hfr2 : (b.add_tile ops path index tile).frames
        = (path, { AtlasFrame.new idx rect with
            offsets := [(index, tile)] }) :: b.frames := by
      rw [hfr]
      simp [alupdate, AtlasFrame.new]
    refine ⟨?_, ?_, ?_⟩
    · rw [hpk]
      exact le_trans h1 hle
    · intro key f hkf
      rw [hfr2] at hkf
      rw [hpk]
      simp only [alookup] at hkf
      by_cases hkey : path = key
      · rw [if_pos hkey] at hkf
        simp at hkf
        subst hkf
        exact hlt
      · rw [if_neg hkey] at hkf
        exact lt_of_lt_of_le (h2 key f hkf) hle
    · intro t key hk
      rw [hloc] at hk
      rw [hfr2]
      simp only [alookup] at hk
      by_cases hti : index = t
      · rw [if_pos hti] at hk
        simp at hk
        subst hk
        refine ⟨{ AtlasFrame.new idx rect with offsets := [(index, tile)] },
          by simp [alookup], tile, ?_⟩
        subst hti
        simp [alookup]
      · rw [if_neg hti] at hk
        obtain ⟨f, hf, tl, htl⟩ := h3 t key hk
        by_cases hkey : path = key
        · subst hkey
          rw [hf] at hnone
          exact absurd hnone (by simp)
        · refine ⟨f, ?_, tl, htl⟩
          simp only [alookup]
          rw [if_neg hkey]
          exact hf

theorem WF_foldl {PS IMG : Type} (ops : PackerOps PS IMG)
    (tiles : List (String × Nat × AtlasTile)) :
    ∀ b : TileManagerBuilder PS, WF b →
      WF (tiles.foldl (fun b t => b.add_tile ops t.1 t.2.1 t.2.2) b) := by
  induction tiles with
  | nil => intro b hb; simpa using hb
  | cons x xs ih =>
    intro b hb
    rw [List.foldl_cons]
    exact ih _ (WF_add_tile ops b x.1 x.2.1 x.2.2 hb)

theorem WF_runBuilder {PS IMG : Type} (ops : PackerOps PS IMG)
    (tiles : List (String × Nat × AtlasTile)) :
    WF (runBuilder ops tiles) :=
  WF_foldl ops tiles (TileManagerBuilder.new ops) (WF_new ops)

theorem foldl_locations_none {PS IMG : Type} (ops : PackerOps PS IMG)
    (tiles : List (String × Nat × AtlasTile)) (t : Nat) :
    ∀ b : TileManagerBuilder PS,
      (alookup t (tiles.foldl
          (fun b x => b.add_tile ops x.1 x.2.1 x.2.2) b).locations = none
        ↔ (alookup t b.locations = none ∧ ∀ x ∈ tiles, x.2.1 ≠ t)) := by
  induction tiles with
  | nil => intro b; simp
  | cons x xs ih =>
    intro b
    rw [List.foldl_cons, ih, add_tile_locations]
    have hstep : alookup t ((x.2.1, x.1) :: b.locations) = none
        ↔ (x.2.1 ≠ t ∧ alookup t b.locations = none) := by
      simp only [alookup]
      by_cases hx : x.2.1 = t
      · rw [if_pos hx]
        simp [hx]
      · rw [if_neg hx]
        simp [hx]
    rw [hstep]
    constructor
    · rintro ⟨⟨hxt, hb⟩, hxs⟩
      exact ⟨hb, by simpa [hxt] using hxs⟩
    · rintro ⟨hb, hall⟩
      have hx := hall x (by simp)
      exact ⟨⟨hx, hb⟩, fun y hy => hall y (by simp [hy])⟩

theorem runBuilder_locations_none {PS IMG : Type} (ops : PackerOps PS IMG)
    (tiles : List (String × Nat × AtlasTile)) (t : Nat) :
    alookup t (runBuilder ops tiles).locations = none
      ↔ ∀ x ∈ tiles, x.2.1 ≠ t := by
  unfold runBuilder
  rw [foldl_locations_none]
  simp [TileManagerBuilder.new, alookup]

theorem get_frame_some {tm : TileManager} {t : Nat} {f : AtlasFrame}
    (h : tm.get_frame t = some f) :
    ∃ key, alookup t tm.locations = some key
      ∧ alookup key tm.frames = some f := by
  unfold TileManager.get_frame at h
  cases hk : alookup t tm.locations with
  | none =>
    rw [hk] at h
    exact absurd h (by simp)
  | some key =>
    rw [hk] at h
    exact ⟨key, rfl, h⟩

theorem build_locations {PS IMG : Type} (ops : PackerOps PS IMG)
    (b : TileManagerBuilder PS) : (b.build ops).locations = b.locations := rfl

theorem build_frames {PS IMG : Type} (ops : PackerOps PS IMG)
    (b : TileManagerBuilder PS) : (b.build ops).frames = b.frames := rfl

theorem build_textures {PS IMG : Type} (ops : PackerOps PS IMG)
    (b : TileManagerBuilder PS) :
    (b.build ops).textures = b.packers.map ops.exportDims := rfl

/-- C3: registering a tile for an image key that is not yet packed tries
the existing packers in creation order and places the image in the first
one that can fit it; only when every existing packer fails does it open
exactly one new empty packer and place the image there; the recorded
`AtlasFrame` carries the index of the packer that received the image. -/
theorem first_fit_page_policy {PS IMG : Type} (ops : PackerOps PS IMG)
    (b : TileManagerBuilder PS) (path : String) (index : Nat)
    (tile_data : AtlasTile)
    (hnew : alookup path b.frames = none) :
    (∀ i, firstFitIndex ops (ops.importImage path) b.packers = some i →
      (∀ j pj, j < i → b.packers[j]? = some pj →
          ops.canPack pj (ops.importImage path) = false)
      ∧ ∃ p, b.packers[i]? = some p
          ∧ ops.canPack p (ops.importImage path) = true
          ∧ (b.add_tile ops path index tile_data).packers
              = b.packers.set i (ops.packOwn p path (ops.importImage path))
          ∧ ∃ f, alookup path (b.add_tile ops path index tile_data).frames
                = some f
              ∧ f.texture_idx = i)
  ∧ (firstFitIndex ops (ops.importImage path) b.packers = none →
      (∀ p ∈ b.packers, ops.canPack p (ops.importImage path) = false)
      ∧ (b.add_tile ops path index tile_data).packers
          = b.packers ++ [ops.packOwn ops.empty path (ops.importImage path)]
      ∧ ∃ f, alookup path (b.add_tile ops path index tile_data).frames
            = some f
          ∧ f.texture_idx = b.packers.length) := by
  have hin : ¬(alookup path b.frames).isSome = true := by
    rw [hnew]
    simp
  have hfr := add_tile_frames ops b path index tile_data
  have hpk := add_tile_packers ops b path index tile_data
  rw [if_neg hin] at hfr hpk
  constructor
  · intro i hffi
    obtain ⟨p, hp, hcan, hpack, hmin⟩ :=
      packFirstFit_of_ffi_some ops path (ops.importImage path) b.packers i hffi
    refine ⟨hmin, p, hp, hcan, ?_, ?_⟩
    · rw [hpk]
      simp [TileManagerBuilder.add_image, hpack]
    · rw [hfr]
      refine ⟨{ AtlasFrame.new i
          (ops.frameRect (ops.packOwn p path (ops.importImage path)) path) with
          offsets := [(index, tile_data)] }, ?_, rfl⟩
      simp [TileManagerBuilder.add_image, hpack, alupdate, alookup,
        AtlasFrame.new]
  · intro hffi
    have hpc := packFirstFit_of_ffi_none ops path (ops.importImage path)
      b.packers hffi
    refine ⟨ffi_none_forall ops (ops.importImage path) b.packers hffi, ?_, ?_⟩
    · rw [hpk]
      simp [TileManagerBuilder.add_image, hpc]
    · rw [hfr]
      refine ⟨{ AtlasFrame.new b.packers.length
          (ops.frameRect (ops.packOwn ops.empty path (ops.importImage path))
            path) with
          offsets := [(index, tile_data)] }, ?_, rfl⟩
      simp [TileManagerBuilder.add_image, hpc, alupdate, alookup,
        AtlasFrame.new]

/-- Witness for C3: a fresh builder with one empty page packs
"grass.png" into page 0, and the frame records index 0. -/
theorem first_fit_page_policy_app :
    alookup "grass.png"
        (TileManagerBuilder.new unitOps).frames = none
  ∧ ∃ f, alookup "grass.png"
        ((TileManagerBuilder.new unitOps).add_tile unitOps "grass.png" 2
          { offset := (0, 0), is_autotile := false,
            tile_kind := TileKind.Static }).frames = some f
      ∧ f.texture_idx = 0 := by
  refine ⟨rfl, ?_⟩
  obtain ⟨hmin, p, hp, hcan, hset, f, hf, hidx⟩ :=
    (first_fit_page_policy unitOps (TileManagerBuilder.new unitOps)
      "grass.png" 2
      { offset := (0, 0), is_autotile := false, tile_kind := TileKind.Static }
      rfl).1 0 rfl
  exact ⟨f, hf, hidx⟩

/-- C8: a built `TileManager` always has at least one pass, the number of
passes is the number of pages the builder created, and every successful
`get_tile_texture_idx` is strictly below `passes`. -/
theorem passes_lower_bound {PS IMG : Type} (ops : PackerOps PS IMG)
    (tiles : List (String × Nat × AtlasTile)) :
    1 ≤ ((runBuilder ops tiles).build ops).passes
  ∧ ((runBuilder ops tiles).build ops).passes
      = (runBuilder ops tiles).packers.length
  ∧ ∀ t i, ((runBuilder ops tiles).build ops).get_tile_texture_idx t = some i →
      i < ((runBuilder ops tiles).build ops).passes := by
  obtain ⟨h1, h2, h3⟩ := WF_runBuilder ops tiles
  have hps : ((runBuilder ops tiles).build ops).passes
      = (runBuilder ops tiles).packers.length := by
    simp [TileManager.passes, build_textures]
  refine ⟨by rw [hps]; exact h1, hps, ?_⟩
  intro t i hti
  unfold TileManager.get_tile_texture_idx at hti
  cases hgf : TileManager.get_frame ((runBuilder ops tiles).build ops) t with
  | none =>
    rw [hgf] at hti
    exact absurd hti (by simp)
  | some f =>
    rw [hgf] at hti
    simp at hti
    obtain ⟨key, hkey, hkf⟩ := get_frame_some hgf
    rw [build_frames] at hkf
    rw [hps, ← hti]
    exact h2 key f hkf

/-- Witness for C8: one registered static tile gives a single pass and a
texture index of 0 for it. -/
theorem passes_lower_bound_app :
    ((runBuilder unitOps [("grass.png", 2,
        { offset := (0, 0), is_autotile := false,
          tile_kind := TileKind.Static })]).build unitOps).get_tile_texture_idx 2
      = some 0
  ∧ 0 < ((runBuilder unitOps [("grass.png", 2,
        { offset := (0, 0), is_autotile := false,
          tile_kind := TileKind.Static })]).build unitOps).passes := by
  refine ⟨rfl, ?_⟩
  exact (passes_lower_bound unitOps [("grass.png", 2,
    { offset := (0, 0), is_autotile := false,
      tile_kind := TileKind.Static })]).2.2 2 0 rfl

/-- A registered static "grass" tile, used by concrete witnesses. -/
def grassTile : AtlasTile :=
  { offset := (0, 0), is_autotile := false, tile_kind := TileKind.Static }

/-- A non-autotile `Animated(4, 100)` tile, as in spec property P5. -/
def animTile : AtlasTile :=
  { offset := (0, 0), is_autotile := false,
    tile_kind := TileKind.Animated 4 100 }

/-- An animated tile registered with a zero-millisecond delay. -/
def zeroDelayTile : AtlasTile :=
  { offset := (0, 0), is_autotile := false,
    tile_kind := TileKind.Animated 1 0 }

/-- A manager with the animated tile registered as index 3. -/
def animTM : TileManager :=
  (runBuilder unitOps [("anim.png", 3, animTile)]).build unitOps

/-- The frame `animTM` holds for "anim.png". -/
def animFrame : AtlasFrame :=
  { tile_size := (48, 48), texture_idx := 0, rect := ⟨0, 0, 48, 48⟩,
    offsets := [(3, animTile)] }

/-- A manager with the zero-delay tile registered as index 7. -/
def zeroDelayTM : TileManager :=
  (runBuilder unitOps [("zero.png", 7, zeroDelayTile)]).build unitOps

/-- The frame `zeroDelayTM` holds for "zero.png". -/
def zeroDelayFrame : AtlasFrame :=
  { tile_size := (48, 48), texture_idx := 0, rect := ⟨0, 0, 48, 48⟩,
    offsets := [(7, zeroDelayTile)] }

/-- C9: `get_texture_offset` divides `msecs` by the animation delay with
no guard, so a tile registered as `Animated(frame_count, 0)` makes every
query panic (modelled as `none`), at every elapsed time. -/
theorem zero_delay_offset_panics (tm : TileManager) (t : Nat)
    (frame : AtlasFrame) (tile : AtlasTile) (fc : Nat)
    (hf : tm.get_frame t = some frame)
    (ht : alookup t frame.offsets = some tile)
    (hk : tile.tile_kind = TileKind.Animated fc 0) :
    ∀ ms, tm.get_texture_offset t ms = none := by
  intro ms
  unfold TileManager.get_texture_offset
  simp only [hf, ht, hk]
  cases hr : tm.get_tex_ratio frame.texture_idx with
  | none => simp
  | some r => simp

/-- Witness for C9: the concrete zero-delay manager panics at time 123. -/
theorem zero_delay_offset_panics_app :
    zeroDelayTM.get_frame 7 = some zeroDelayFrame
  ∧ zeroDelayTM.get_texture_offset 7 123 = none :=
  ⟨rfl, zero_delay_offset_panics zeroDelayTM 7 zeroDelayFrame zeroDelayTile 1
    rfl rfl rfl 123⟩

/-- C4: for a registered tile, `get_texture_offset` advances the column by
`(4 * (msecs / delay)) % frame_count` for an autotile and by
`(msecs / delay) % frame_count` otherwise, while a `Static` tile's offset
does not depend on the elapsed time at all. -/
theorem texture_offset_animation (tm : TileManager) (t : Nat)
    (frame : AtlasFrame) (tile : AtlasTile) (r : ℚ × ℚ)
    (hf : tm.get_frame t = some frame)
    (ht : alookup t frame.offsets = some tile)
    (hr : tm.get_tex_ratio frame.texture_idx = some r) :
    (∀ fc delay, tile.tile_kind = TileKind.Animated fc delay →
      0 < fc → 0 < delay → ∀ ms,
        tm.get_texture_offset t ms = some
          ((((tile.offset.1 + ((get_add_offset frame.rect).1 +
              (if tile.is_autotile then (4 * (ms / delay)) % fc
                else (ms / delay) % fc))) * 2 : Nat) : ℚ) * r.1,
            (((tile.offset.2 + (get_add_offset frame.rect).2) * 2 : Nat) : ℚ)
              * r.2))
  ∧ (tile.tile_kind = TileKind.Static →
      ∀ ms ms2, tm.get_texture_offset t ms = tm.get_texture_offset t ms2) := by
  constructor
  · intro fc delay hkind hfc hdelay ms
    unfold TileManager.get_texture_offset
    simp only [hf, ht, hr, hkind]
    rw [if_neg (by omega : ¬(delay = 0 ∨ fc = 0))]
  · intro hkind ms ms2
    unfold TileManager.get_texture_offset
    simp only [hf, ht, hr, hkind]

/-- Witness for C4 (spec property P5): the `Animated(4, 100)` non-autotile
tile yields frame indices 0, 1, 0, 0 at 0, 100, 400 and 450 ms — visible
as the UV x-offset stepping to 1/2 only at 100 ms. -/
theorem texture_offset_animation_app :
    animTM.get_texture_offset 3 0 = some (0, 0)
  ∧ animTM.get_texture_offset 3 100 = some (1/2, 0)
  ∧ animTM.get_texture_offset 3 400 = some (0, 0)
  ∧ animTM.get_texture_offset 3 450 = some (0, 0) := by
  have h := (texture_offset_animation animTM 3 animFrame animTile
    (1/4, 1/4) rfl rfl rfl).1 4 100 rfl (by decide) (by decide)
  refine ⟨?_, ?_, ?_, ?_⟩
  · rw [h 0]
    norm_num [animTile, animFrame, get_add_offset]
  · rw [h 100]
    norm_num [animTile, animFrame, get_add_offset]
  · rw [h 400]
    norm_num [animTile, animFrame, get_add_offset]
  · rw [h 450]
    norm_num [animTile, animFrame, get_add_offset]

/-- Counterexample to C6 as stated: index 7 IS registered (its descriptor
is retrievable), yet `get_texture_offset` still fails on it, because its
animation delay is zero — so "every registered TileIndex succeeds" is
false for `get_texture_offset`. -/
theorem registered_lookup_fails_cex :
    zeroDelayTM.get 7 = some zeroDelayTile
  ∧ zeroDelayTM.get_texture_offset 7 0 = none :=
  ⟨rfl, rfl⟩

/-- C6 (amended): for any built manager, an unregistered index makes all
three lookups fail loudly (`none`, the model of the source's `unwrap`
panic), and a registered index succeeds for `get` and
`get_tile_texture_idx`; `get_texture_offset` also succeeds provided the
registered tile is `Static` or `Animated` with a nonzero frame count and
nonzero delay. -/
theorem lookup_error_policy {PS IMG : Type} (ops : PackerOps PS IMG)
    (tiles : List (String × Nat × AtlasTile)) (t : Nat) :
    ((∀ x ∈ tiles, x.2.1 ≠ t) →
        ((runBuilder ops tiles).build ops).get t = none
      ∧ ((runBuilder ops tiles).build ops).get_tile_texture_idx t = none
      ∧ ∀ ms, ((runBuilder ops tiles).build ops).get_texture_offset t ms
            = none)
  ∧ ((∃ x ∈ tiles, x.2.1 = t) →
        (∃ tile, ((runBuilder ops tiles).build ops).get t = some tile)
      ∧ (∃ i, ((runBuilder ops tiles).build ops).get_tile_texture_idx t
            = some i)
      ∧ ∀ tile, ((runBuilder ops tiles).build ops).get t = some tile →
          (tile.tile_kind = TileKind.Static
            ∨ ∃ fc d, tile.tile_kind = TileKind.Animated fc d
                ∧ 0 < fc ∧ 0 < d) →
          ∀ ms, ∃ uv,
            ((runBuilder ops tiles).build ops).get_texture_offset t ms
              = some uv) := by
  constructor
  · intro hall
    have hnone : alookup t (runBuilder ops tiles).locations = none :=
      (runBuilder_locations_none ops tiles t).mpr hall
    have hgf : ((runBuilder ops tiles).build ops).get_frame t = none := by
      unfold TileManager.get_frame
      rw [build_locations, hnone]
    refine ⟨?_, ?_, ?_⟩
    · unfold TileManager.get
      rw [hgf]
    · unfold TileManager.get_tile_texture_idx
      rw [hgf]
      rfl
    · intro ms
      unfold TileManager.get_texture_offset
      rw [hgf]
  · rintro ⟨x, hx, hxt⟩
    obtain ⟨h1, h2, h3⟩ := WF_runBuilder ops tiles
    have hns : alookup t (runBuilder ops tiles).locations ≠ none := by
      intro hn
      exact ((runBuilder_locations_none ops tiles t).mp hn) x hx hxt
    obtain ⟨key, hkey⟩ := Option.ne_none_iff_exists'.mp hns
    obtain ⟨f, hf, tile0, htile0⟩ := h3 t key hkey
    have hgf : ((runBuilder ops tiles).build ops).get_frame t = some f := by
      unfold TileManager.get_frame
      rw [build_locations, hkey, build_frames]
      exact hf
    refine ⟨⟨tile0, ?_⟩, ⟨f.texture_idx, ?_⟩, ?_⟩
    · unfold TileManager.get
      rw [hgf]
      exact htile0
    · unfold TileManager.get_tile_texture_idx
      rw [hgf]
      rfl
    · intro tile hget hkind ms
      have htl : alookup t f.offsets = some tile := by
        unfold TileManager.get at hget
        rw [hgf] at hget
        exact hget
      have hidx : f.texture_idx
          < ((runBuilder ops tiles).packers.map ops.exportDims).length := by
        rw [List.length_map]
        exact h2 key f hf
      have hratio : ((runBuilder ops tiles).build ops).get_tex_ratio
          f.texture_idx = some
            (1 / ((((runBuilder ops tiles).packers.map
                ops.exportDims)[f.texture_idx].1 / 24 : Nat) : ℚ),
             1 / ((((runBuilder ops tiles).packers.map
                ops.exportDims)[f.texture_idx].2 / 24 : Nat) : ℚ)) := by
        unfold TileManager.get_tex_ratio
        rw [build_textures, List.getElem?_eq_getElem hidx]
      rw [← Option.isSome_iff_exists]
      rcases hkind with hst | ⟨fc, d, han, hfc, hd⟩
      · unfold TileManager.get_texture_offset
        simp only [hgf, htl, hratio, hst]
        rfl
      · unfold TileManager.get_texture_offset
        simp only [hgf, htl, hratio, han]
        rw [if_neg (by omega : ¬(d = 0 ∨ fc = 0))]
        rfl

/-- Witness for C6 (amended): with one registered static tile, the
unregistered index 9 fails all lookups and the registered index 2 has a
defined texture offset. -/
theorem lookup_error_policy_app :
    ((runBuilder unitOps [("grass.png", 2, grassTile)]).build unitOps).get 9
      = none
  ∧ ∃ uv, ((runBuilder unitOps
        [("grass.png", 2, grassTile)]).build unitOps).get_texture_offset 2 5
      = some uv := by
  constructor
  · exact ((lookup_error_policy unitOps [("grass.png", 2, grassTile)] 9).1
      (by intro x hx; simp at hx; subst hx; decide)).1
  · exact ((lookup_error_policy unitOps [("grass.png", 2, grassTile)] 2).2
      ⟨("grass.png", 2, grassTile), by simp, rfl⟩).2.2 grassTile rfl
      (Or.inl rfl) 5

end Autotile
